import Mathlib

/-!
Verification of the pcvisualizer point-cloud viewer core.

The development shallowly embeds the two modules the specification's
testable properties speak about:

* `src/engine/pointcloud.rs` — PCD loading, normalization of point
  coordinates into per-instance GPU data, and the draw call structure.
  Floating point values are modelled as exact rationals; GPU side effects
  are modelled as an explicit command list.
* `src/engine/camera.rs` — the orbit/zoom camera. Vector arithmetic is
  modelled over the reals (square roots are irrational, so the camera
  state lives in `ℝ`); the window event handler is embedded as a state
  transition function over an explicit event type.
-/

namespace PCV

/-! ## Point cloud model (`src/engine/pointcloud.rs`) -/

/-- Raw input record parsed from a PCD file (struct `Point`):
position `x, y, z` and an `intensity` that is read but never used. -/
structure Point where
  x : ℚ
  y : ℚ
  z : ℚ
  intensity : ℚ
deriving DecidableEq, Repr

/-- GPU per-point instance datum (struct `Instance`): `model: [f32; 3]`,
modelled as a triple of rationals. -/
structure Instance where
  model : ℚ × ℚ × ℚ
deriving DecidableEq, Repr

/-- The value of `f32::MIN`, the most negative finite `f32`:
`-(2 - 2^-23) * 2^127`. `to_instance` seeds its running maximum with it. -/
def f32MIN : ℚ := -(2 ^ 128 - 2 ^ 104)

/-- The per-point maximum `point.x.max(point.y).max(point.z)` computed in
the first loop of `PointCloud::to_instance`. -/
def maxCoord (p : Point) : ℚ := max (max p.x p.y) p.z

/-- The folding step of `to_instance`'s first loop:
`if max_value < tmp { max_value = tmp; }`. -/
def maxStep (acc : ℚ) (p : Point) : ℚ :=
  if acc < maxCoord p then maxCoord p else acc

/-- The global maximum coordinate computed by the first loop of
`PointCloud::to_instance`, starting from `f32::MIN`. -/
def maxValue (points : List Point) : ℚ := points.foldl maxStep f32MIN

/-- `PointCloud::to_instance`: computes the global maximum coordinate and
divides every coordinate of every point by it, in input order. -/
def to_instance (points : List Point) : List Instance :=
  let m := maxValue points
  points.map (fun p => ⟨(p.x / m, p.y / m, p.z / m)⟩)

/-- Parse error surfaced by `pcd_rs` (opaque to the core; modelled as a
string message). -/
def ParseErr : Type := String

/-- CPU-side state of the `PointCloud` renderer that the load/draw claims
depend on: the instance list (the instance buffer is its byte-for-byte GPU
mirror, rebuilt whenever the list is) and the point size. -/
structure PointCloudState where
  instances : List Instance
  point_size : ℚ
deriving DecidableEq, Repr

/-- `PointCloud::load_pcd`: the outcome of `Self::read_pcd(path)` is passed
in explicitly (file IO is external). On a read error the error is returned
before any state is touched; on success the instance list is rebuilt
wholesale from the parsed points. -/
def load_pcd (readResult : Except ParseErr (List Point)) (s : PointCloudState) :
    PointCloudState × Except ParseErr Unit :=
  match readResult with
  | .error e => (s, .error e)
  | .ok points => ({ s with instances := to_instance points }, .ok ())

/-- GPU commands recorded by `PointCloud::draw`, in issue order. -/
inductive GpuCmd where
  | beginRenderPass
  | setPipeline
  | setBindGroup
  | setVertexBuffer
  | draw (vertices : ℕ) (instanceCount : ℕ)
deriving DecidableEq, Repr

/-- Recognizes a `draw` command. -/
def GpuCmd.isDraw : GpuCmd → Bool
  | .draw _ _ => true
  | _ => false

/-- `PointCloud::draw`: returns immediately when `self.instances` is empty;
otherwise begins one render pass, binds pipeline / bind group / instance
buffer, and issues `draw(0..6, 0..self.instances.len())`. -/
def draw (s : PointCloudState) : List GpuCmd :=
  if s.instances.isEmpty then []
  else [.beginRenderPass, .setPipeline, .setBindGroup, .setVertexBuffer,
        .draw 6 s.instances.length]

/-! ## Camera model (`src/engine/camera.rs`)

Vectors follow cgmath's `Vector3<f32>` / `Point3<f32>` (both are triples;
the point/vector distinction only affects Rust types, not values). -/

/-- A 3-component vector (cgmath `Vector3` / `Point3`). -/
structure Vec3 where
  x : ℝ
  y : ℝ
  z : ℝ

/-- Componentwise addition. -/
def Vec3.add (a b : Vec3) : Vec3 := ⟨a.x + b.x, a.y + b.y, a.z + b.z⟩

/-- Componentwise subtraction (`Point3 - Point3`, `Point3 - Vector3`). -/
def Vec3.sub (a b : Vec3) : Vec3 := ⟨a.x - b.x, a.y - b.y, a.z - b.z⟩

/-- cgmath `vector * scalar`: componentwise scaling with the scalar on the
right. -/
def Vec3.mulScalar (v : Vec3) (c : ℝ) : Vec3 := ⟨v.x * c, v.y * c, v.z * c⟩

/-- cgmath `InnerSpace::dot`. -/
def Vec3.dot (a b : Vec3) : ℝ := a.x * b.x + a.y * b.y + a.z * b.z

/-- cgmath `Vector3::cross`. -/
def Vec3.cross (a b : Vec3) : Vec3 :=
  ⟨a.y * b.z - a.z * b.y, a.z * b.x - a.x * b.z, a.x * b.y - a.y * b.x⟩

/-- cgmath `InnerSpace::magnitude`: `sqrt(dot(v, v))`. -/
noncomputable def Vec3.magnitude (v : Vec3) : ℝ := Real.sqrt (v.dot v)

/-- cgmath `InnerSpace::normalize`: `self * (1 / magnitude)`. -/
noncomputable def Vec3.normalize (v : Vec3) : Vec3 :=
  v.mulScalar (1 / v.magnitude)

/-- Physical key codes the handler distinguishes (all others fall through
unconsumed). -/
inductive KeyCodeM where
  | keyW | keyS | keyA | keyD
  | arrowUp | arrowDown | arrowLeft | arrowRight
  | keyB | otherKey
deriving DecidableEq, Repr

/-- The window events `Camera::process_event` matches on. Cursor positions
are the logical coordinates (the physical-to-logical scale-factor division
is performed by the windowing layer and folded into the event here). -/
inductive CamEvent where
  | mouseRightInput (pressed : Bool)
  | mouseWheelLine (x y : ℝ)
  | mouseWheelPixel
  | cursorMoved (x y : ℝ)
  | keyboardInput (key : KeyCodeM) (pressed : Bool)
  | other

/-- The `Camera` struct: view/projection parameters plus the transient
interaction state (right-drag anchor and pressed-key flags). -/
structure Camera where
  eye : Vec3
  target : Vec3
  up : Vec3
  aspect : ℝ
  fovy : ℝ
  znear : ℝ
  zfar : ℝ
  mouse_right_position : Option (ℝ × ℝ)
  is_left_pressed : Bool
  is_right_pressed : Bool
  is_up_pressed : Bool
  is_down_pressed : Bool

/-- `Camera::new`: fixes `znear = 0.01`, `zfar = 100.0`, clears the drag
anchor and all key flags. -/
def Camera.new (eye target up : Vec3) (aspect fovy : ℝ) : Camera :=
  { eye := eye, target := target, up := up, aspect := aspect, fovy := fovy
    znear := 0.01, zfar := 100.0
    mouse_right_position := none
    is_left_pressed := false, is_right_pressed := false
    is_up_pressed := false, is_down_pressed := false }

/-- The candidate eye position computed inside `Camera::camera_rotate`
before the z-guard:
`target - (forward + right*dx*scale + up*dy*scale).normalize() * forward_mag`
with `scale = 0.0001`, `right = normalize(cross(normalize(forward), up))`
and `up` renormalized. -/
noncomputable def rotateCandidate (c : Camera) (dx dy : ℝ) : Vec3 :=
  let forward := c.target.sub c.eye
  let forward_norm := forward.normalize
  let forward_mag := forward.magnitude
  let right := (forward_norm.cross c.up).normalize
  let up := c.up.normalize
  let scale : ℝ := 0.0001
  c.target.sub
    ((((forward.add ((right.mulScalar dx).mulScalar scale)).add
        ((up.mulScalar dy).mulScalar scale)).normalize).mulScalar forward_mag)

/-- `Camera::camera_rotate`: commit the candidate eye only when its
z-coordinate is strictly positive, otherwise leave the state unchanged. -/
noncomputable def camera_rotate (c : Camera) (dx dy : ℝ) : Camera :=
  if (rotateCandidate c dx dy).z > 0 then { c with eye := rotateCandidate c dx dy }
  else c

/-- The candidate eye position computed inside `Camera::camera_zoom`
before the z-guard: `eye + forward_norm * y * scale` with `scale = 0.01`. -/
noncomputable def zoomCandidate (c : Camera) (y : ℝ) : Vec3 :=
  let forward := c.target.sub c.eye
  let forward_norm := forward.normalize
  let scale : ℝ := 0.01
  c.eye.add ((forward_norm.mulScalar y).mulScalar scale)

/-- `Camera::camera_zoom`: commit the candidate eye only when its
z-coordinate is strictly positive, otherwise leave the state unchanged. -/
noncomputable def camera_zoom (c : Camera) (y : ℝ) : Camera :=
  if (zoomCandidate c y).z > 0 then { c with eye := zoomCandidate c y }
  else c

/-- `Camera::set_birdeye`: `camera_rotate(0.0, -1e8)`. -/
noncomputable def set_birdeye (c : Camera) : Camera :=
  camera_rotate c 0 (-100000000)

/-- `Camera::process_event`: returns the updated camera and whether the
event was consumed. Mirrors the `match` in the source: right-button press
sets the drag anchor to the sentinel `(0, 0)`, release clears it; a
line-delta wheel zooms; cursor motion while dragging either records the
first position (when the anchor is the sentinel) or rotates by the delta
from the stored anchor; WASD/arrow keys set flags; `B` snaps birdeye. -/
noncomputable def process_event (c : Camera) (e : CamEvent) : Camera × Bool :=
  match e with
  | .mouseRightInput pressed =>
    if pressed then ({ c with mouse_right_position := some (0, 0) }, true)
    else ({ c with mouse_right_position := none }, true)
  | .mouseWheelLine _ y => (camera_zoom c y, true)
  | .mouseWheelPixel => (c, false)
  | .cursorMoved px py =>
    match c.mouse_right_position with
    | some (x, y) =>
      if x = 0 ∧ y = 0 then ({ c with mouse_right_position := some (px, py) }, true)
      else (camera_rotate c (px - x) (py - y), true)
    | none => (c, false)
  | .keyboardInput k pressed =>
    match k with
    | .keyW | .arrowUp => ({ c with is_up_pressed := pressed }, true)
    | .keyS | .arrowDown => ({ c with is_down_pressed := pressed }, true)
    | .keyA | .arrowLeft => ({ c with is_left_pressed := pressed }, true)
    | .keyD | .arrowRight => ({ c with is_right_pressed := pressed }, true)
    | .keyB => (set_birdeye c, true)
    | .otherKey => (c, false)
  | .other => (c, false)

/-! ## View-projection matrices

4×4 matrices with entries named row-major (`mRC` is row `R`, column `C`),
acting on column vectors: `(M v).r = Σ_c M.mrc * v.c`. -/

/-- A 4×4 real matrix; field `mRC` is the entry at row `R`, column `C`. -/
structure Matrix4 where
  m00 : ℝ
  m01 : ℝ
  m02 : ℝ
  m03 : ℝ
  m10 : ℝ
  m11 : ℝ
  m12 : ℝ
  m13 : ℝ
  m20 : ℝ
  m21 : ℝ
  m22 : ℝ
  m23 : ℝ
  m30 : ℝ
  m31 : ℝ
  m32 : ℝ
  m33 : ℝ

/-- cgmath's `Matrix4::new`, whose sixteen arguments are given COLUMN by
column (`cCrR` is column `C`, row `R`): the textual rows of a
`Matrix4::new(..)` literal in the Rust source are the columns of the
mathematical matrix. -/
def Matrix4.new
    (c0r0 c0r1 c0r2 c0r3 c1r0 c1r1 c1r2 c1r3
     c2r0 c2r1 c2r2 c2r3 c3r0 c3r1 c3r2 c3r3 : ℝ) : Matrix4 :=
  { m00 := c0r0, m01 := c1r0, m02 := c2r0, m03 := c3r0
    m10 := c0r1, m11 := c1r1, m12 := c2r1, m13 := c3r1
    m20 := c0r2, m21 := c1r2, m22 := c2r2, m23 := c3r2
    m30 := c0r3, m31 := c1r3, m32 := c2r3, m33 := c3r3 }

/-- Matrix product (column-vector convention, as cgmath's `Mul`). -/
def Matrix4.mul (a b : Matrix4) : Matrix4 :=
  { m00 := a.m00 * b.m00 + a.m01 * b.m10 + a.m02 * b.m20 + a.m03 * b.m30
    m01 := a.m00 * b.m01 + a.m01 * b.m11 + a.m02 * b.m21 + a.m03 * b.m31
    m02 := a.m00 * b.m02 + a.m01 * b.m12 + a.m02 * b.m22 + a.m03 * b.m32
    m03 := a.m00 * b.m03 + a.m01 * b.m13 + a.m02 * b.m23 + a.m03 * b.m33
    m10 := a.m10 * b.m00 + a.m11 * b.m10 + a.m12 * b.m20 + a.m13 * b.m30
    m11 := a.m10 * b.m01 + a.m11 * b.m11 + a.m12 * b.m21 + a.m13 * b.m31
    m12 := a.m10 * b.m02 + a.m11 * b.m12 + a.m12 * b.m22 + a.m13 * b.m32
    m13 := a.m10 * b.m03 + a.m11 * b.m13 + a.m12 * b.m23 + a.m13 * b.m33
    m20 := a.m20 * b.m00 + a.m21 * b.m10 + a.m22 * b.m20 + a.m23 * b.m30
    m21 := a.m20 * b.m01 + a.m21 * b.m11 + a.m22 * b.m21 + a.m23 * b.m31
    m22 := a.m20 * b.m02 + a.m21 * b.m12 + a.m22 * b.m22 + a.m23 * b.m32
    m23 := a.m20 * b.m03 + a.m21 * b.m13 + a.m22 * b.m23 + a.m23 * b.m33
    m30 := a.m30 * b.m00 + a.m31 * b.m10 + a.m32 * b.m20 + a.m33 * b.m30
    m31 := a.m30 * b.m01 + a.m31 * b.m11 + a.m32 * b.m21 + a.m33 * b.m31
    m32 := a.m30 * b.m02 + a.m31 * b.m12 + a.m32 * b.m22 + a.m33 * b.m32
    m33 := a.m30 * b.m03 + a.m31 * b.m13 + a.m32 * b.m23 + a.m33 * b.m33 }

/-- The `OPENGL_TO_WGPU_MATRIX` constant, exactly as written in the source
(a `cgmath::Matrix4::new` literal, hence column-major). -/
def OPENGL_TO_WGPU_MATRIX : Matrix4 :=
  Matrix4.new
    1 0 0 0
    0 1 0 0
    0 0 0.5 0.5
    0 0 0 1

/-- cgmath `Matrix4::look_at_rh(eye, center, up)`. -/
noncomputable def look_at_rh (eye center up : Vec3) : Matrix4 :=
  let f := (center.sub eye).normalize
  let s := (f.cross up).normalize
  let u := s.cross f
  Matrix4.new
    s.x u.x (-f.x) 0
    s.y u.y (-f.y) 0
    s.z u.z (-f.z) 0
    (-(eye.dot s)) (-(eye.dot u)) (eye.dot f) 1

/-- Degrees to radians (cgmath `Rad::from(Deg(d))`). -/
noncomputable def degToRad (d : ℝ) : ℝ := d * Real.pi / 180

/-- cgmath `perspective(Deg(fovy), aspect, near, far)`: the right-handed
perspective matrix with `f = cot(fovy/2)` (cot computed as `1/tan`). -/
noncomputable def perspective (fovy aspect near far : ℝ) : Matrix4 :=
  let f := 1 / Real.tan (degToRad fovy / 2)
  Matrix4.new
    (f / aspect) 0 0 0
    0 f 0 0
    0 0 ((far + near) / (near - far)) (-1)
    0 0 ((2 * far * near) / (near - far)) 0

/-- `Camera::build_view_projection_matrix`:
`OPENGL_TO_WGPU_MATRIX * perspective(Deg(fovy), aspect, znear, zfar) *
look_at_rh(eye, target, up)`. -/
noncomputable def build_view_projection_matrix (c : Camera) : Matrix4 :=
  (OPENGL_TO_WGPU_MATRIX.mul
    (perspective c.fovy c.aspect c.znear c.zfar)).mul
    (look_at_rh c.eye c.target c.up)

/-- `Camera::get_view_proj` (the `[[f32; 4]; 4]` conversion is a layout
change only, so the result is modelled as the matrix itself). -/
noncomputable def get_view_proj (c : Camera) : Matrix4 :=
  build_view_projection_matrix c

/-- Modelled from the spec: the claimed `ClipSpaceAdjust` matrix, built
entry by entry from the claim's row-major wording — `diag(1,1,0.5,1)` with
an additional `0.5` at row 3, column 4, so that `z' = 0.5z + 0.5w` and
`w' = w`. Rows of the anonymous constructor below are rows of the matrix. -/
def clipSpaceAdjustSpec : Matrix4 :=
  { m00 := 1, m01 := 0, m02 := 0, m03 := 0
    m10 := 0, m11 := 1, m12 := 0, m13 := 0
    m20 := 0, m21 := 0, m22 := 0.5, m23 := 0.5
    m30 := 0, m31 := 0, m32 := 0, m33 := 1 }

/-- The clip-space adjustment the code actually applies, written row-major:
`diag(1,1,0.5,1)` with an additional `0.5` at row 4, column 3, so that
`z' = 0.5z` and `w' = 0.5z + w` (the transpose of `clipSpaceAdjustSpec`). -/
def clipSpaceAdjustActual : Matrix4 :=
  { m00 := 1, m01 := 0, m02 := 0, m03 := 0
    m10 := 0, m11 := 1, m12 := 0, m13 := 0
    m20 := 0, m21 := 0, m22 := 0.5, m23 := 0
    m30 := 0, m31 := 0, m32 := 0.5, m33 := 1 }

/-! ## Concrete fixtures used by witnesses and counterexamples -/

/-- A single input point with a negative coordinate of magnitude larger
than the global maximum. -/
def ptNeg : Point := ⟨-2, 1, 1, 0⟩

/-- Renderer state with no instances loaded. -/
def pcEmpty : PointCloudState := ⟨[], 3 / 2⟩

/-- Renderer state with one instance loaded. -/
def pcOne : PointCloudState := ⟨[⟨(0, 0, 0)⟩], 3 / 2⟩

/-- A camera one unit above the origin looking down the z-axis. -/
def camA : Camera := Camera.new ⟨0, 0, 1⟩ ⟨0, 0, 0⟩ ⟨0, 1, 0⟩ 1 90

/-- A camera whose target sits below the `z = 0` plane, so that a large
horizontal rotation pushes the candidate eye to non-positive `z`. -/
def camB : Camera := Camera.new ⟨0, 0, 1⟩ ⟨0, 0, -2⟩ ⟨0, 1, 0⟩ 1 90

/-- `camA` mid-drag, with the anchor already set to `(1, 2)`. -/
def camDrag : Camera := { camA with mouse_right_position := some (1, 2) }

/-! ## General lemmas about the vector operations -/

theorem Vec3.dot_self_nonneg (v : Vec3) : 0 ≤ v.dot v := by
  have hx := sq_nonneg v.x
  have hy := sq_nonneg v.y
  have hz := sq_nonneg v.z
  simp only [Vec3.dot]
  nlinarith

theorem Vec3.dot_self_pos (v : Vec3) (h : v ≠ ⟨0, 0, 0⟩) : 0 < v.dot v := by
  rcases lt_or_eq_of_le (Vec3.dot_self_nonneg v) with hlt | heq
  · exact hlt
  · exfalso
    apply h
    have hx : v.x = 0 := by
      simp only [Vec3.dot] at heq
      nlinarith [sq_nonneg v.x, sq_nonneg v.y, sq_nonneg v.z]
    have hy : v.y = 0 := by
      simp only [Vec3.dot] at heq
      nlinarith [sq_nonneg v.x, sq_nonneg v.y, sq_nonneg v.z]
    have hz : v.z = 0 := by
      simp only [Vec3.dot] at heq
      nlinarith [sq_nonneg v.x, sq_nonneg v.y, sq_nonneg v.z]
    have hv : v = ⟨v.x, v.y, v.z⟩ := rfl
    rw [hv, hx, hy, hz]

theorem Vec3.magnitude_nonneg (v : Vec3) : 0 ≤ v.magnitude :=
  Real.sqrt_nonneg _

theorem Vec3.magnitude_pos (v : Vec3) (h : v ≠ ⟨0, 0, 0⟩) : 0 < v.magnitude :=
  Real.sqrt_pos.mpr (Vec3.dot_self_pos v h)

theorem Vec3.magnitude_sq (v : Vec3) : v.magnitude ^ 2 = v.dot v :=
  Real.sq_sqrt (Vec3.dot_self_nonneg v)

theorem Vec3.dot_mulScalar_left (a b : Vec3) (c : ℝ) :
    (a.mulScalar c).dot b = a.dot b * c := by
  simp only [Vec3.dot, Vec3.mulScalar]
  ring

theorem Vec3.dot_comm (a b : Vec3) : a.dot b = b.dot a := by
  simp only [Vec3.dot]
  ring

theorem Vec3.dot_add_left (a b c : Vec3) :
    (a.add b).dot c = a.dot c + b.dot c := by
  simp only [Vec3.dot, Vec3.add]
  ring

theorem Vec3.magnitude_mulScalar (v : Vec3) (c : ℝ) :
    (v.mulScalar c).magnitude = v.magnitude * |c| := by
  simp only [Vec3.magnitude, Vec3.dot, Vec3.mulScalar]
  rw [show v.x * c * (v.x * c) + v.y * c * (v.y * c) + v.z * c * (v.z * c)
      = (v.x * v.x + v.y * v.y + v.z * v.z) * c ^ 2 by ring]
  rw [Real.sqrt_mul (by nlinarith [sq_nonneg v.x, sq_nonneg v.y, sq_nonneg v.z]),
    Real.sqrt_sq_eq_abs]

theorem Vec3.magnitude_normalize (v : Vec3) (h : v ≠ ⟨0, 0, 0⟩) :
    v.normalize.magnitude = 1 := by
  have hm := Vec3.magnitude_pos v h
  simp only [Vec3.normalize]
  rw [Vec3.magnitude_mulScalar, abs_of_pos (by positivity)]
  field_simp

theorem Vec3.mulScalar_mulScalar (v : Vec3) (a b : ℝ) :
    (v.mulScalar a).mulScalar b = v.mulScalar (a * b) := by
  simp only [Vec3.mulScalar, Vec3.mk.injEq]
  refine ⟨by ring, by ring, by ring⟩

theorem Vec3.cross_dot_self_left (a b : Vec3) : (a.cross b).dot a = 0 := by
  simp only [Vec3.cross, Vec3.dot]
  ring

theorem Vec3.cross_dot_self_right (a b : Vec3) : (a.cross b).dot b = 0 := by
  simp only [Vec3.cross, Vec3.dot]
  ring

theorem Vec3.cross_mulScalar_left (a b : Vec3) (c : ℝ) :
    (a.mulScalar c).cross b = (a.cross b).mulScalar c := by
  simp only [Vec3.cross, Vec3.mulScalar, Vec3.mk.injEq]
  refine ⟨by ring, by ring, by ring⟩

theorem Vec3.cross_self (a : Vec3) : a.cross a = ⟨0, 0, 0⟩ := by
  simp only [Vec3.cross, Vec3.mk.injEq]
  refine ⟨by ring, by ring, by ring⟩

theorem Vec3.mulScalar_zero (v : Vec3) : v.mulScalar 0 = ⟨0, 0, 0⟩ := by
  simp [Vec3.mulScalar]

theorem Vec3.add_zero_vec (v : Vec3) : v.add ⟨0, 0, 0⟩ = v := by
  simp [Vec3.add]

theorem Vec3.add_eq_zero (a b : Vec3) (h : a.add b = ⟨0, 0, 0⟩) :
    a = b.mulScalar (-1) := by
  cases a
  cases b
  simp only [Vec3.add, Vec3.mk.injEq] at h
  simp only [Vec3.mulScalar, Vec3.mk.injEq]
  refine ⟨by linarith [h.1], by linarith [h.2.1], by linarith [h.2.2]⟩

theorem Vec3.magnitude_sub_comm (a b : Vec3) :
    (a.sub b).magnitude = (b.sub a).magnitude := by
  simp only [Vec3.magnitude, Vec3.dot, Vec3.sub]
  congr 1
  ring

theorem Vec3.magnitude_sub_sub (t w : Vec3) :
    ((t.sub w).sub t).magnitude = w.magnitude := by
  simp only [Vec3.magnitude, Vec3.dot, Vec3.sub]
  congr 1
  ring

theorem Vec3.normalize_zero : (Vec3.mk 0 0 0).normalize = ⟨0, 0, 0⟩ := by
  simp [Vec3.normalize, Vec3.mulScalar]

theorem Vec3.zero_mulScalar (c : ℝ) : (Vec3.mk 0 0 0).mulScalar c = ⟨0, 0, 0⟩ := by
  simp [Vec3.mulScalar]

theorem Vec3.normalize_eq (v : Vec3) : v.normalize = v.mulScalar (1 / v.magnitude) :=
  rfl

theorem sqrt_nine : Real.sqrt 9 = 3 := by
  rw [show (9 : ℝ) = 3 ^ 2 by norm_num]
  exact Real.sqrt_sq (by norm_num)

theorem sqrt_twentyfive : Real.sqrt 25 = 5 := by
  rw [show (25 : ℝ) = 5 ^ 2 by norm_num]
  exact Real.sqrt_sq (by norm_num)

theorem Vec3.magnitude_zzneg (a : ℝ) (ha : 0 ≤ a) :
    (Vec3.mk 0 0 (-a)).magnitude = a := by
  simp only [Vec3.magnitude, Vec3.dot]
  rw [show ((0 : ℝ) * 0 + 0 * 0 + -a * -a) = a ^ 2 by ring]
  exact Real.sqrt_sq ha

theorem Vec3.normalize_zzneg (a : ℝ) (ha : 0 < a) :
    (Vec3.mk 0 0 (-a)).normalize = ⟨0, 0, -1⟩ := by
  rw [Vec3.normalize_eq, Vec3.magnitude_zzneg a ha.le]
  simp only [Vec3.mulScalar, Vec3.mk.injEq]
  refine ⟨by ring, by ring, ?_⟩
  field_simp

theorem Vec3.magnitude_unitx : (Vec3.mk 1 0 0).magnitude = 1 := by
  simp only [Vec3.magnitude, Vec3.dot]
  rw [show ((1 : ℝ) * 1 + 0 * 0 + 0 * 0) = 1 by ring]
  exact Real.sqrt_one

theorem Vec3.normalize_unitx : (Vec3.mk 1 0 0).normalize = ⟨1, 0, 0⟩ := by
  rw [Vec3.normalize_eq, Vec3.magnitude_unitx]
  simp only [Vec3.mulScalar, Vec3.mk.injEq]
  norm_num

theorem Vec3.magnitude_unity : (Vec3.mk 0 1 0).magnitude = 1 := by
  simp only [Vec3.magnitude, Vec3.dot]
  rw [show ((0 : ℝ) * 0 + 1 * 1 + 0 * 0) = 1 by ring]
  exact Real.sqrt_one

theorem Vec3.normalize_unity : (Vec3.mk 0 1 0).normalize = ⟨0, 1, 0⟩ := by
  rw [Vec3.normalize_eq, Vec3.magnitude_unity]
  simp only [Vec3.mulScalar, Vec3.mk.injEq]
  norm_num

/-! ## Camera state bookkeeping lemmas -/

theorem camera_rotate_target (c : Camera) (dx dy : ℝ) :
    (camera_rotate c dx dy).target = c.target := by
  unfold camera_rotate
  split <;> rfl

theorem camera_rotate_mouse (c : Camera) (dx dy : ℝ) :
    (camera_rotate c dx dy).mouse_right_position = c.mouse_right_position := by
  unfold camera_rotate
  split <;> rfl

theorem camera_rotate_eye_cases (c : Camera) (dx dy : ℝ) :
    (camera_rotate c dx dy).eye = rotateCandidate c dx dy ∧ 0 < (rotateCandidate c dx dy).z
      ∨ camera_rotate c dx dy = c := by
  unfold camera_rotate
  split
  · exact Or.inl ⟨rfl, by assumption⟩
  · exact Or.inr rfl

theorem camera_zoom_target (c : Camera) (y : ℝ) :
    (camera_zoom c y).target = c.target := by
  unfold camera_zoom
  split <;> rfl

theorem camera_zoom_eye_cases (c : Camera) (y : ℝ) :
    (camera_zoom c y).eye = zoomCandidate c y ∧ 0 < (zoomCandidate c y).z
      ∨ camera_zoom c y = c := by
  unfold camera_zoom
  split
  · exact Or.inl ⟨rfl, by assumption⟩
  · exact Or.inr rfl

/-! ## Lemmas about the running maximum of `to_instance` -/

theorem le_foldl_maxStep (l : List Point) (init : ℚ) :
    init ≤ l.foldl maxStep init := by
  induction l generalizing init with
  | nil => exact le_refl _
  | cons hd tl ih =>
    refine le_trans ?_ (ih (maxStep init hd))
    unfold maxStep
    split
    · exact le_of_lt (by assumption)
    · exact le_refl _

theorem maxCoord_le_foldl (l : List Point) (p : Point) (hp : p ∈ l) (init : ℚ) :
    maxCoord p ≤ l.foldl maxStep init := by
  induction l generalizing init with
  | nil => cases hp
  | cons hd tl ih =>
    rcases List.mem_cons.mp hp with heq | hmem
    · subst heq
      refine le_trans ?_ (le_foldl_maxStep tl (maxStep init p))
      unfold maxStep
      split
      · exact le_refl _
      · exact le_of_not_lt (by assumption)
    · exact ih hmem (maxStep init hd)

theorem foldl_maxStep_attained (l : List Point) (init : ℚ) :
    l.foldl maxStep init = init ∨ ∃ p ∈ l, l.foldl maxStep init = maxCoord p := by
  induction l generalizing init with
  | nil => exact Or.inl rfl
  | cons hd tl ih =>
    rw [List.foldl_cons]
    rcases ih (maxStep init hd) with h | ⟨p, hp, hm⟩
    · by_cases hcmp : init < maxCoord hd
      · refine Or.inr ⟨hd, List.mem_cons_self hd tl, ?_⟩
        rw [h]
        unfold maxStep
        rw [if_pos hcmp]
      · refine Or.inl ?_
        rw [h]
        unfold maxStep
        rw [if_neg hcmp]
    · exact Or.inr ⟨p, List.mem_cons_of_mem hd hp, hm⟩

theorem coord_le_maxCoord_x (p : Point) : p.x ≤ maxCoord p :=
  le_trans (le_max_left _ _) (le_max_left _ _)

theorem coord_le_maxCoord_y (p : Point) : p.y ≤ maxCoord p :=
  le_trans (le_max_right _ _) (le_max_left _ _)

theorem coord_le_maxCoord_z (p : Point) : p.z ≤ maxCoord p :=
  le_max_right _ _

/-! ## Claims about the point-cloud renderer -/

/-- C1 (counterexample). The claim states that after a successful load of a
non-empty point set every instance coordinate lies in `[-1, 1]`. The
single-point set `{(-2, 1, 1)}` refutes it: the global maximum computed by
`to_instance` is the signed maximum `1`, and the produced instance is
`(-2, 1, 1)`, whose first coordinate `-2` is below `-1`. -/
theorem C1_normalization_counterexample :
    to_instance [ptNeg] = [⟨(-2, 1, 1)⟩] ∧ ¬ (-1 ≤ (-2 : ℚ) ∧ (-2 : ℚ) ≤ 1) := by
  constructor
  · show to_instance [ptNeg] = [⟨(-2, 1, 1)⟩]
    simp only [to_instance, ptNeg, maxValue, maxStep, maxCoord, f32MIN, List.foldl,
      List.map]
    norm_num
  · intro h
    have := h.1
    norm_num at this

/-- C1 (amended). After a load of a non-empty point set whose global
maximum coordinate (as computed by `to_instance`, the signed maximum over
all three axes of all points, seeded with `f32::MIN`) is positive, every
instance coordinate is at most `1`, and at least one instance coordinate
equals exactly `1` (the maximum divides itself). No lower bound of `-1`
holds in general. -/
theorem C1_normalization_amended (pts : List Point) (hne : pts ≠ [])
    (hpos : 0 < maxValue pts) :
    (∀ i ∈ to_instance pts,
      i.model.1 ≤ 1 ∧ i.model.2.1 ≤ 1 ∧ i.model.2.2 ≤ 1) ∧
    (∃ i ∈ to_instance pts,
      i.model.1 = 1 ∨ i.model.2.1 = 1 ∨ i.model.2.2 = 1) := by
  constructor
  · intro i hi
    simp only [to_instance, List.mem_map] at hi
    obtain ⟨p, hp, rfl⟩ := hi
    have hb := maxCoord_le_foldl pts p hp f32MIN
    have hx : p.x ≤ maxValue pts := le_trans (coord_le_maxCoord_x p) hb
    have hy : p.y ≤ maxValue pts := le_trans (coord_le_maxCoord_y p) hb
    have hz : p.z ≤ maxValue pts := le_trans (coord_le_maxCoord_z p) hb
    exact ⟨(div_le_one hpos).mpr hx, (div_le_one hpos).mpr hy,
      (div_le_one hpos).mpr hz⟩
  · rcases foldl_maxStep_attained pts f32MIN with h | ⟨p, hp, hm⟩
    · exfalso
      rw [maxValue] at hpos
      rw [h] at hpos
      norm_num [f32MIN] at hpos
    · refine ⟨⟨(p.x / maxValue pts, p.y / maxValue pts, p.z / maxValue pts)⟩,
        ?_, ?_⟩
      · simp only [to_instance, List.mem_map]
        exact ⟨p, hp, rfl⟩
      · have hmv : maxValue pts = maxCoord p := hm
        rcases max_choice (max p.x p.y) p.z with hc | hc
        · rcases max_choice p.x p.y with hc2 | hc2
          · left
            have : p.x = maxValue pts := by rw [hmv]; unfold maxCoord; rw [hc, hc2]
            rw [this]
            exact div_self (ne_of_gt hpos)
          · right; left
            have : p.y = maxValue pts := by rw [hmv]; unfold maxCoord; rw [hc, hc2]
            rw [this]
            exact div_self (ne_of_gt hpos)
        · right; right
          have : p.z = maxValue pts := by rw [hmv]; unfold maxCoord; rw [hc]
          rw [this]
          exact div_self (ne_of_gt hpos)

/-- C1 (witness): the amended claim applied to the concrete set
`{(-2, 1, 1)}`, whose computed global maximum is `1 > 0`. -/
theorem C1_normalization_witness :
    [ptNeg] ≠ ([] : List Point) ∧ 0 < maxValue [ptNeg] ∧
    ((∀ i ∈ to_instance [ptNeg],
        i.model.1 ≤ 1 ∧ i.model.2.1 ≤ 1 ∧ i.model.2.2 ≤ 1) ∧
      (∃ i ∈ to_instance [ptNeg],
        i.model.1 = 1 ∨ i.model.2.1 = 1 ∨ i.model.2.2 = 1)) := by
  have h1 : [ptNeg] ≠ ([] : List Point) := by simp
  have h2 : 0 < maxValue [ptNeg] := by
    simp only [maxValue, maxStep, maxCoord, f32MIN, ptNeg, List.foldl]
    norm_num
  exact ⟨h1, h2, C1_normalization_amended [ptNeg] h1 h2⟩

/-- C7. When `read_pcd` fails, `load_pcd` returns the error and leaves the
renderer state (in particular the instance list) completely unchanged:
load is all-or-nothing. -/
theorem C7_failed_load_preserves_state
    (r : Except ParseErr (List Point)) (s : PointCloudState) (e : ParseErr)
    (h : r = .error e) :
    (load_pcd r s).1 = s ∧ (load_pcd r s).2 = .error e := by
  subst h
  exact ⟨rfl, rfl⟩

/-- C7 (witness): a concrete failing read leaves the concrete one-instance
state intact. -/
theorem C7_failed_load_preserves_state_witness :
    (load_pcd (.error "malformed") pcOne).1 = pcOne ∧
    (load_pcd (.error "malformed") pcOne).2 = .error "malformed" :=
  C7_failed_load_preserves_state (.error "malformed") pcOne "malformed" rfl

/-- C8. Loading exactly the points `(0,0,0)` and `(2,4,8)` (with any
intensities) produces the instance list `[(0,0,0), (1/4, 1/2, 1)]`: the
global maximum `8` is computed and every coordinate divided by it. -/
theorem C8_scenario_two_points (i1 i2 : ℚ) :
    to_instance [⟨0, 0, 0, i1⟩, ⟨2, 4, 8, i2⟩]
      = [⟨(0, 0, 0)⟩, ⟨(1 / 4, 1 / 2, 1)⟩] := by
  simp only [to_instance, maxValue, maxStep, maxCoord, f32MIN, List.foldl,
    List.map]
  norm_num

/-- C9. With zero instances loaded, `draw` returns before starting a render
pass, so it records no GPU commands at all; with `N > 0` instances loaded
it issues exactly one draw command, of 6 vertices and `N` instances. -/
theorem C9_draw_commands (s : PointCloudState) :
    (s.instances = [] → draw s = []) ∧
    (s.instances ≠ [] →
      (draw s).filter GpuCmd.isDraw = [.draw 6 s.instances.length]) := by
  constructor
  · intro h
    simp [draw, h]
  · intro h
    rw [draw, if_neg (by simpa using h)]
    simp [GpuCmd.isDraw, List.filter]

/-- C9 (witness): the empty state records nothing; the one-instance state
records exactly one draw of 6 vertices and 1 instance. -/
theorem C9_draw_commands_witness :
    draw pcEmpty = [] ∧
    (draw pcOne).filter GpuCmd.isDraw = [.draw 6 pcOne.instances.length] :=
  ⟨(C9_draw_commands pcEmpty).1 rfl, (C9_draw_commands pcOne).2 (by simp [pcOne])⟩

/-- C10. A load whose parse succeeds with zero points returns `Ok`,
replaces the instance list by the empty list (no division is performed for
an empty input, so no coordinate — NaN, infinite or otherwise — is
produced), and returns the renderer to the state in which `draw` records
no GPU commands. -/
theorem C10_empty_load (s : PointCloudState) :
    (load_pcd (.ok []) s).1.instances = [] ∧
    (load_pcd (.ok []) s).2 = .ok () ∧
    draw (load_pcd (.ok []) s).1 = [] := by
  refine ⟨?_, rfl, ?_⟩
  · simp [load_pcd, to_instance]
  · simp [draw, load_pcd, to_instance]

/-! ## Claims about the camera -/

/-- C3 (counterexample). The claim states that each pointer-motion event
after the first updates the drag anchor to the new pointer position. In
the code the rotate branch never writes `mouse_right_position`: after
pressing the right button and moving to `(1, 2)` and then to `(3, 4)`,
the stored anchor is still `(1, 2)`, not `(3, 4)`. -/
theorem C3_drag_anchor_counterexample :
    ((process_event
        ((process_event
            ((process_event camA (.mouseRightInput true)).1)
            (.cursorMoved 1 2)).1)
        (.cursorMoved 3 4)).1).mouse_right_position = some (1, 2) ∧
      some ((1 : ℝ), (2 : ℝ)) ≠ some ((3 : ℝ), (4 : ℝ)) := by
  constructor
  · have h1 : (process_event camA (.mouseRightInput true)).1
        = { camA with mouse_right_position := some (0, 0) } := by
      simp [process_event]
    rw [h1]
    have h2 : (process_event { camA with mouse_right_position := some (0, 0) }
        (.cursorMoved 1 2)).1
        = { camA with mouse_right_position := some (1, 2) } := by
      simp [process_event]
    rw [h2]
    have h3 : (process_event { camA with mouse_right_position := some (1, 2) }
        (.cursorMoved 3 4)).1
        = camera_rotate { camA with mouse_right_position := some (1, 2) }
            (3 - 1) (4 - 2) := by
      simp only [process_event]
      rw [if_neg (by norm_num)]
    rw [h3, camera_rotate_mouse]
  · intro h
    norm_num at h

/-- C3 (amended). During a right-drag, a motion event finding the sentinel
anchor `(0, 0)` stores the pointer position as the new anchor and applies
no rotation; a motion event finding a non-sentinel anchor applies
`camera_rotate` with the delta from the anchor but leaves the anchor
unchanged — the anchor keeps its first-motion value for the rest of the
drag, so later deltas are measured from the first motion position. -/
theorem C3_drag_anchor_amended (c : Camera) (px py x y : ℝ)
    (hanchor : c.mouse_right_position = some (x, y)) :
    (x = 0 ∧ y = 0 →
      process_event c (.cursorMoved px py)
        = ({ c with mouse_right_position := some (px, py) }, true)) ∧
    (¬(x = 0 ∧ y = 0) →
      process_event c (.cursorMoved px py)
        = (camera_rotate c (px - x) (py - y), true) ∧
      (camera_rotate c (px - x) (py - y)).mouse_right_position = some (x, y)) := by
  constructor
  · intro h
    simp only [process_event, hanchor]
    rw [if_pos h]
  · intro h
    constructor
    · simp only [process_event, hanchor]
      rw [if_neg h]
    · rw [camera_rotate_mouse, hanchor]

/-- C3 (witness): the amended claim applied to a camera mid-drag with
anchor `(1, 2)` receiving a motion to `(3, 4)`. -/
theorem C3_drag_anchor_witness :
    camDrag.mouse_right_position = some (1, 2) ∧
    (process_event camDrag (.cursorMoved 3 4)
        = (camera_rotate camDrag (3 - 1) (4 - 2), true) ∧
      (camera_rotate camDrag (3 - 1) (4 - 2)).mouse_right_position
        = some (1, 2)) :=
  ⟨rfl, (C3_drag_anchor_amended camDrag 3 4 1 2 rfl).2 (by norm_num)⟩

/-- C4. For every camera state whose forward direction is not parallel to
its up vector (so the orbit frame is defined; the hypothesis also forces
eye ≠ target), a `camera_rotate` step preserves the eye-to-target
distance exactly: either the z-guard rejects the update and the state is
unchanged, or the new eye is `target - normalize(perturbed) * |forward|`,
whose distance to the target is again `|forward|`. Per-event invariance
for all states covers every step of every orbit-drag sequence. -/
theorem C4_rotate_distance_invariant (c : Camera) (dx dy : ℝ)
    (h : ((c.target.sub c.eye).normalize).cross c.up ≠ ⟨0, 0, 0⟩) :
    ((camera_rotate c dx dy).eye.sub (camera_rotate c dx dy).target).magnitude
      = (c.eye.sub c.target).magnitude := by
  rcases camera_rotate_eye_cases c dx dy with ⟨heye, _⟩ | hsame
  · rw [heye, camera_rotate_target]
    set f := c.target.sub c.eye with hf
    set cv := f.normalize.cross c.up with hcv
    set r := cv.normalize with hr
    set un := c.up.normalize with hun
    set vp := (f.add ((r.mulScalar dx).mulScalar 0.0001)).add
        ((un.mulScalar dy).mulScalar 0.0001) with hvp
    have hcand : rotateCandidate c dx dy
        = c.target.sub (vp.normalize.mulScalar f.magnitude) := rfl
    have hfne : f ≠ ⟨0, 0, 0⟩ := by
      intro h0
      apply h
      rw [hcv, h0, Vec3.normalize_zero]
      simp [Vec3.cross]
    have hvpne : vp ≠ ⟨0, 0, 0⟩ := by
      intro h0
      have hcvf : cv.dot f = 0 := by
        rw [hcv, Vec3.normalize_eq, Vec3.cross_mulScalar_left,
          Vec3.dot_mulScalar_left, Vec3.cross_dot_self_left, zero_mul]
      have hrf : r.dot f = 0 := by
        rw [hr, Vec3.normalize_eq, Vec3.dot_mulScalar_left, hcvf, zero_mul]
      have hcvu : cv.dot c.up = 0 := by
        rw [hcv, Vec3.normalize_eq, Vec3.cross_mulScalar_left,
          Vec3.dot_mulScalar_left, Vec3.cross_dot_self_right, zero_mul]
      have hru : r.dot c.up = 0 := by
        rw [hr, Vec3.normalize_eq, Vec3.dot_mulScalar_left, hcvu, zero_mul]
      have hrun : r.dot un = 0 := by
        rw [hun, Vec3.normalize_eq, Vec3.dot_comm, Vec3.dot_mulScalar_left,
          Vec3.dot_comm, hru, zero_mul]
      have hrr : r.dot r = 1 := by
        have hm1 : r.magnitude = 1 := by
          rw [hr]
          exact Vec3.magnitude_normalize cv h
        have h2 := Vec3.magnitude_sq r
        rw [hm1] at h2
        rw [← h2]
        norm_num
      have hA : ((r.mulScalar dx).mulScalar 0.0001).dot r = dx * 0.0001 := by
        rw [Vec3.dot_mulScalar_left, Vec3.dot_mulScalar_left, hrr]
        ring
      have hB : ((un.mulScalar dy).mulScalar 0.0001).dot r = 0 := by
        rw [Vec3.dot_mulScalar_left, Vec3.dot_mulScalar_left,
          Vec3.dot_comm un r, hrun]
        ring
      have hfr : f.dot r = 0 := by
        rw [Vec3.dot_comm f r, hrf]
      have hdotvp : vp.dot r = dx * 0.0001 := by
        rw [hvp, Vec3.dot_add_left, Vec3.dot_add_left, hfr, hA, hB]
        ring
      have hdxz : dx * 0.0001 = 0 := by
        rw [← hdotvp, h0]
        simp [Vec3.dot]
      have hdx : dx = 0 := by
        rcases mul_eq_zero.mp hdxz with hz | hz
        · exact hz
        · norm_num at hz
      rw [hvp, hdx, Vec3.mulScalar_zero, Vec3.zero_mulScalar,
        Vec3.add_zero_vec] at h0
      have hfB : f = ((un.mulScalar dy).mulScalar 0.0001).mulScalar (-1) :=
        Vec3.add_eq_zero _ _ h0
      rw [Vec3.mulScalar_mulScalar, hun, Vec3.normalize_eq,
        Vec3.mulScalar_mulScalar] at hfB
      apply h
      rw [hcv, Vec3.normalize_eq, Vec3.cross_mulScalar_left, hfB,
        Vec3.cross_mulScalar_left, Vec3.cross_mulScalar_left, Vec3.cross_self,
        Vec3.zero_mulScalar, Vec3.zero_mulScalar, Vec3.zero_mulScalar]
    rw [hcand, Vec3.magnitude_sub_sub, Vec3.magnitude_mulScalar,
      Vec3.magnitude_normalize vp hvpne, one_mul,
      abs_of_nonneg (Vec3.magnitude_nonneg f), hf]
    exact Vec3.magnitude_sub_comm _ _
  · rw [hsame]

/-- C4 (witness): the invariance theorem applied to a camera at
`(0, 0, 1)` looking at the origin with up `(0, 1, 0)` (forward and up are
not parallel), with a zero-delta rotation step. -/
theorem C4_rotate_distance_invariant_witness :
    ((camA.target.sub camA.eye).normalize).cross camA.up ≠ ⟨0, 0, 0⟩ ∧
    ((camera_rotate camA 0 0).eye.sub (camera_rotate camA 0 0).target).magnitude
      = (camA.eye.sub camA.target).magnitude := by
  have hf : camA.target.sub camA.eye = ⟨0, 0, -1⟩ := by
    show Vec3.sub ⟨0, 0, 0⟩ ⟨0, 0, 1⟩ = ⟨0, 0, -1⟩
    simp only [Vec3.sub, Vec3.mk.injEq]
    norm_num
  have hside : ((camA.target.sub camA.eye).normalize).cross camA.up
      ≠ ⟨0, 0, 0⟩ := by
    rw [hf, Vec3.normalize_zzneg 1 one_pos,
      show camA.up = ⟨0, 1, 0⟩ from rfl,
      show (Vec3.mk 0 0 (-1)).cross ⟨0, 1, 0⟩ = ⟨1, 0, 0⟩ from by
        simp only [Vec3.cross, Vec3.mk.injEq]; norm_num]
    intro hcontra
    exact one_ne_zero (congrArg Vec3.x hcontra)
  exact ⟨hside, C4_rotate_distance_invariant camA 0 0 hside⟩

/-- C5. The z-guard of both camera updates: if the candidate eye computed
by `camera_rotate` (resp. `camera_zoom`) has z ≤ 0, the whole update is
dropped and the camera is returned unchanged; consequently, starting from
an eye with positive z, neither update can ever produce an eye with
z ≤ 0. -/
theorem C5_z_guard (c : Camera) (dx dy y : ℝ) :
    ((rotateCandidate c dx dy).z ≤ 0 → camera_rotate c dx dy = c) ∧
    ((zoomCandidate c y).z ≤ 0 → camera_zoom c y = c) ∧
    (0 < c.eye.z →
      0 < (camera_rotate c dx dy).eye.z ∧ 0 < (camera_zoom c y).eye.z) := by
  refine ⟨?_, ?_, ?_⟩
  · intro h
    unfold camera_rotate
    rw [if_neg (not_lt.mpr h)]
  · intro h
    unfold camera_zoom
    rw [if_neg (not_lt.mpr h)]
  · intro h
    constructor
    · rcases camera_rotate_eye_cases c dx dy with ⟨heq, hz⟩ | hsame
      · rw [heq]; exact hz
      · rw [hsame]; exact h
    · rcases camera_zoom_eye_cases c y with ⟨heq, hz⟩ | hsame
      · rw [heq]; exact hz
      · rw [hsame]; exact h

/-- C5 (witness): concrete rejected updates. For `camB` (target below the
z = 0 plane) a rotation with `dx = 40000` yields candidate eye
`(-12/5, 0, -1/5)`, which the guard rejects, leaving the camera unchanged;
for `camA` a zoom with `y = 200` yields candidate eye `(0, 0, -1)`,
likewise rejected; and from `camA` (eye z = 1 > 0) a rotation keeps the
eye's z positive. -/
theorem C5_z_guard_witness :
    (rotateCandidate camB 40000 0).z ≤ 0 ∧ camera_rotate camB 40000 0 = camB ∧
    (zoomCandidate camA 200).z ≤ 0 ∧ camera_zoom camA 200 = camA ∧
    0 < (camera_rotate camA 0 0).eye.z := by
  have hfB : camB.target.sub camB.eye = ⟨0, 0, -3⟩ := by
    show Vec3.sub ⟨0, 0, -2⟩ ⟨0, 0, 1⟩ = ⟨0, 0, -3⟩
    simp only [Vec3.sub, Vec3.mk.injEq]
    norm_num
  have hcand : rotateCandidate camB 40000 0
      = camB.target.sub
        (((((camB.target.sub camB.eye).add
            ((((((camB.target.sub camB.eye).normalize).cross
                camB.up).normalize).mulScalar 40000).mulScalar 0.0001)).add
            (((camB.up.normalize).mulScalar 0).mulScalar 0.0001)).normalize).mulScalar
          (camB.target.sub camB.eye).magnitude) := rfl
  have h1 : (rotateCandidate camB 40000 0) = ⟨-12 / 5, 0, -1 / 5⟩ := by
    rw [hcand, hfB, Vec3.normalize_zzneg 3 (by norm_num),
      show camB.up = ⟨0, 1, 0⟩ from rfl,
      show (Vec3.mk 0 0 (-1)).cross ⟨0, 1, 0⟩ = ⟨1, 0, 0⟩ from by
        simp only [Vec3.cross, Vec3.mk.injEq]; norm_num,
      Vec3.normalize_unitx, Vec3.normalize_unity,
      Vec3.magnitude_zzneg 3 (by norm_num)]
    rw [show ((Vec3.mk 0 0 (-3)).add
          (((Vec3.mk 1 0 0).mulScalar 40000).mulScalar 0.0001)).add
          (((Vec3.mk 0 1 0).mulScalar 0).mulScalar 0.0001) = ⟨4, 0, -3⟩ from by
        simp only [Vec3.add, Vec3.mulScalar, Vec3.mk.injEq]; norm_num]
    rw [show (Vec3.mk 4 0 (-3)).normalize = ⟨4 / 5, 0, -3 / 5⟩ from by
        rw [Vec3.normalize_eq,
          show (Vec3.mk 4 0 (-3)).magnitude = 5 from by
            simp only [Vec3.magnitude, Vec3.dot]
            rw [show ((4 : ℝ) * 4 + 0 * 0 + -3 * -3) = 25 by norm_num]
            exact sqrt_twentyfive]
        simp only [Vec3.mulScalar, Vec3.mk.injEq]
        norm_num]
    show Vec3.sub ⟨0, 0, -2⟩ _ = _
    simp only [Vec3.sub, Vec3.mulScalar, Vec3.mk.injEq]
    norm_num
  have w1 : (rotateCandidate camB 40000 0).z ≤ 0 := by
    rw [h1]
    norm_num
  have hfA : camA.target.sub camA.eye = ⟨0, 0, -1⟩ := by
    show Vec3.sub ⟨0, 0, 0⟩ ⟨0, 0, 1⟩ = ⟨0, 0, -1⟩
    simp only [Vec3.sub, Vec3.mk.injEq]
    norm_num
  have hzc : zoomCandidate camA 200
      = camA.eye.add
          ((((camA.target.sub camA.eye).normalize).mulScalar 200).mulScalar
            0.01) := rfl
  have w2 : (zoomCandidate camA 200).z ≤ 0 := by
    rw [hzc, hfA, Vec3.normalize_zzneg 1 one_pos]
    show (Vec3.add ⟨0, 0, 1⟩ _).z ≤ 0
    simp only [Vec3.add, Vec3.mulScalar]
    norm_num
  have w3 : 0 < camA.eye.z := by norm_num [camA, Camera.new]
  exact ⟨w1, (C5_z_guard camB 40000 0 200).1 w1, w2,
    (C5_z_guard camA 0 0 200).2.1 w2,
    ((C5_z_guard camA 0 0 200).2.2 w3).1⟩

/-- C6. Zoom moves the eye only along the line through the old eye and the
target: the updated eye is `eye + t * (target - eye)` for some scalar `t`
(`t = 0` when the guard rejects the update); and neither `camera_zoom` nor
`camera_rotate` ever modifies the target. -/
theorem C6_zoom_on_line_target_fixed (c : Camera) (y dx dy : ℝ) :
    (∃ t : ℝ, (camera_zoom c y).eye
        = c.eye.add ((c.target.sub c.eye).mulScalar t)) ∧
    (camera_zoom c y).target = c.target ∧
    (camera_rotate c dx dy).target = c.target := by
  refine ⟨?_, camera_zoom_target c y, camera_rotate_target c dx dy⟩
  rcases camera_zoom_eye_cases c y with ⟨heq, _⟩ | hsame
  · refine ⟨1 / (c.target.sub c.eye).magnitude * (y * 0.01), ?_⟩
    rw [heq,
      show zoomCandidate c y = c.eye.add
        ((((c.target.sub c.eye).normalize).mulScalar y).mulScalar 0.01)
        from rfl,
      Vec3.normalize_eq, Vec3.mulScalar_mulScalar, Vec3.mulScalar_mulScalar]
  · refine ⟨0, ?_⟩
    rw [hsame, Vec3.mulScalar_zero, Vec3.add_zero_vec]

/-- C2 (counterexample). The claim asserts that the clip-space adjustment
applied by `get_view_proj` is `diag(1,1,0.5,1)` with an extra `0.5` at row
3, column 4 (so z is remapped to `0.5z + 0.5w`). But the source's
`Matrix4::new` literal is column-major, so the code's matrix is the
transpose of that: for the camera `camA` the two products differ (entry at
row 4, column 3 is `-29799/19998` in the code, `-1` under the claim). -/
theorem C2_view_proj_counterexample :
    get_view_proj camA
      ≠ (clipSpaceAdjustSpec.mul
          (perspective camA.fovy camA.aspect camA.znear camA.zfar)).mul
          (look_at_rh camA.eye camA.target camA.up) := by
  have hf : camA.target.sub camA.eye = ⟨0, 0, -1⟩ := by
    show Vec3.sub ⟨0, 0, 0⟩ ⟨0, 0, 1⟩ = ⟨0, 0, -1⟩
    simp only [Vec3.sub, Vec3.mk.injEq]
    norm_num
  have hfn : (camA.target.sub camA.eye).normalize = ⟨0, 0, -1⟩ := by
    rw [hf, Vec3.normalize_zzneg 1 one_pos]
  have hV : look_at_rh camA.eye camA.target camA.up
      = Matrix4.new 1 0 0 0 0 1 0 0 0 0 1 0 0 0 (-1) 1 := by
    simp only [look_at_rh]
    rw [hfn, show camA.up = ⟨0, 1, 0⟩ from rfl,
      show (Vec3.mk 0 0 (-1)).cross ⟨0, 1, 0⟩ = ⟨1, 0, 0⟩ from by
        simp only [Vec3.cross, Vec3.mk.injEq]; norm_num,
      Vec3.normalize_unitx,
      show (Vec3.mk 1 0 0).cross ⟨0, 0, -1⟩ = ⟨0, 1, 0⟩ from by
        simp only [Vec3.cross, Vec3.mk.injEq]; norm_num,
      show camA.eye = ⟨0, 0, 1⟩ from rfl]
    simp only [Vec3.dot, Matrix4.new, Matrix4.mk.injEq]
    norm_num
  have htan : Real.tan (degToRad camA.fovy / 2) = 1 := by
    rw [show degToRad camA.fovy / 2 = Real.pi / 4 from by
      show degToRad 90 / 2 = Real.pi / 4
      unfold degToRad
      ring]
    exact Real.tan_pi_div_four
  have hP : perspective camA.fovy camA.aspect camA.znear camA.zfar
      = Matrix4.new 1 0 0 0 0 1 0 0
          0 0 (-(10001 / 9999 : ℝ)) (-1) 0 0 (-(200 / 9999 : ℝ)) 0 := by
    simp only [perspective]
    rw [htan]
    rw [show camA.aspect = 1 from rfl, show camA.znear = 0.01 from rfl,
      show camA.zfar = 100.0 from rfl]
    simp only [Matrix4.new, Matrix4.mk.injEq]
    norm_num
  intro hEq
  have h32 := congrArg Matrix4.m32 hEq
  simp only [get_view_proj, build_view_projection_matrix, hP, hV] at h32
  simp only [OPENGL_TO_WGPU_MATRIX, clipSpaceAdjustSpec, Matrix4.new,
    Matrix4.mul] at h32
  norm_num at h32

/-- C2 (amended). `get_view_proj` returns
`ClipSpaceAdjust * Perspective(fovy, aspect, znear, zfar) *
LookAt(eye, target, up)` where `ClipSpaceAdjust` is `diag(1,1,0.5,1)` with
an additional `0.5` at row 4, column 3 — so `z' = 0.5*z` and
`w' = 0.5*z + w` — i.e. the transpose of the matrix stated in the claim
(the source writes the textbook remap rows as the column-major arguments
of `cgmath::Matrix4::new`). -/
theorem C2_view_proj_amended (c : Camera) :
    get_view_proj c
      = (clipSpaceAdjustActual.mul
          (perspective c.fovy c.aspect c.znear c.zfar)).mul
          (look_at_rh c.eye c.target c.up) := rfl

end PCV
